import Mathlib

/-!
Verification development for the ULTRETH mempool terminal core
(src/src/ethereum.rs, src/src/main.rs).

The embedding models the connector retry loop (connect_to_node), the
mempool polling cycle (subscribe_to_pending_transactions) on both its
primary txpool path and its pending-block fallback path, the block
watcher loop (subscribe_to_blocks), the rate pacing computation, the
CLI rate-limit configuration surface, and the bounded-channel handoff
used for fan-out. External RPC results are supplied as oracle
functions; transaction hashes and block heights are modelled as Nat.
-/

namespace Ultreth

/-! ### Connector (connect_to_node, ethereum.rs lines 28-104) -/

/-- Result of one liveness probe (get_block_number under a 5s timeout):
success with the current height, a timeout, or an RPC error whose
extracted numeric code (via get_error_code) may be absent. -/
inductive ProbeResult where
  | ok (height : Nat)
  | timeout
  | rpcFail (code : Option Int)
deriving DecidableEq

/-- Terminal outcome of connect_to_node. -/
inductive ConnectOutcome where
  | connected (height : Nat)
  | fatalMethodNotFound
  | rpcExhausted
  | timeoutExhausted
deriving DecidableEq

/-- Trace of a connect_to_node run: final outcome, number of probe
attempts performed, and the list of sleep durations (ms) taken between
consecutive attempts. -/
structure ConnectResult where
  outcome : ConnectOutcome
  attempts : Nat
  sleepsMs : List Nat
deriving DecidableEq

/-- Hard-coded retry budget, ethereum.rs line 39. -/
def maxRetries : Nat := 3

/-- Hard-coded fixed retry delay in milliseconds, ethereum.rs line 41. -/
def retryDelayMs : Nat := 500

/-- The retry loop of connect_to_node starting from retry counter rc.
Mirrors ethereum.rs lines 44-103: a successful probe returns at once;
an RPC error whose extracted code is -32601 returns at once with no
retry; any other RPC error or a timeout increments the counter, returns
failure once the counter reaches max_retries, and otherwise sleeps the
fixed delay and loops. -/
def connectFrom (probe : Nat → ProbeResult) (maxR : Nat) (rc : Nat) : ConnectResult :=
  match probe rc with
  | .ok h => ⟨.connected h, 1, []⟩
  | .timeout =>
      if _hstop : maxR ≤ rc + 1 then ⟨.timeoutExhausted, 1, []⟩
      else
        let r := connectFrom probe maxR (rc + 1)
        ⟨r.outcome, r.attempts + 1, retryDelayMs :: r.sleepsMs⟩
  | .rpcFail code =>
      if code = some (-32601) then ⟨.fatalMethodNotFound, 1, []⟩
      else if _hstop : maxR ≤ rc + 1 then ⟨.rpcExhausted, 1, []⟩
      else
        let r := connectFrom probe maxR (rc + 1)
        ⟨r.outcome, r.attempts + 1, retryDelayMs :: r.sleepsMs⟩
termination_by maxR - rc
decreasing_by
  all_goals omega

/-- connect_to_node after successful provider construction: the retry
loop with the hard-coded budget of 3, starting at counter 0. -/
def connect (probe : Nat → ProbeResult) : ConnectResult :=
  connectFrom probe maxRetries 0

/-! ### Event fan-out channels (main.rs lines 120-121, tokio mpsc) -/

/-- Outcome of one send on a bounded mpsc channel. -/
inductive SendOutcome where
  | delivered
  | errClosed
  | awaitsCapacity
deriving DecidableEq

/-- Semantics of the awaited bounded-channel send the pollers invoke
(tokio::sync::mpsc::Sender::send, the dependency called at ethereum.rs
lines 138, 162 and 199): the call errors only when the channel is
closed; with free capacity the item is enqueued; with the queue full it
suspends the caller until capacity becomes available. -/
def mpscSendOutcome (capacity len : Nat) (closed : Bool) : SendOutcome :=
  if closed then .errClosed
  else if len < capacity then .delivered
  else .awaitsCapacity

/-- Transaction channel capacity, main.rs line 120. -/
def txChannelCapacity : Nat := 1000

/-- Block channel capacity, main.rs line 121. -/
def blockChannelCapacity : Nat := 100

/-! ### Configuration surface and rate pacing
(main.rs lines 23-25, ethereum.rs lines 114-116 and 173-177) -/

/-- The clap u32 parser behind the rate_limit flag: any value that fits
in a u32 is accepted; there is no positivity validator. -/
def cliParseRateLimit (n : Nat) : Option Nat := if n < 2 ^ 32 then some n else none

/-- Rust integer division on u32: panics (modelled as none) when the
divisor is zero, otherwise truncating division. -/
def rustDiv (a b : Nat) : Option Nat := if b = 0 then none else some (a / b)

/-- The per-cycle delay computation at ethereum.rs line 115:
1000 / rate_limit, evaluated with Rust u32 division. -/
def pollDelayMs (rateLimit : Nat) : Option Nat := rustDiv 1000 rateLimit

/-- Suspension taken at the end of a polling cycle, ethereum.rs lines
174-177: sleep the remaining delay when the elapsed time is shorter
than the delay, otherwise do not sleep. -/
def sleepAfter (delay elapsed : Nat) : Nat := if elapsed < delay then delay - elapsed else 0

/-- Cycle start times generated by the polling loop under processing
times ps: each next cycle starts after the processing time plus the
pacing suspension. -/
def cycleStarts (delay s0 : Nat) : List Nat → List Nat
  | [] => [s0]
  | p :: ps => s0 :: cycleStarts delay (s0 + p + sleepAfter delay p) ps

/-! ### Mempool poller (subscribe_to_pending_transactions,
ethereum.rs lines 107-179)

Transaction hashes are Nat. The oracle getTx models get_transaction:
true when the detail fetch returns Ok(Some(tx)), false for Ok(None) or
Err. A cycle returns the list of emitted hashes (in the order the send
calls happen) and the bookkeeping produced by the cycle. -/

/-- One pass of the primary-path loop (ethereum.rs lines 127-145) over
the flattened pending map: for each hash, if it is not contained in the
last_txs vector, attempt the detail fetch (emitting the transaction on
success) and push the hash onto new_txs regardless of the fetch result.
Returns (emitted hashes, new_txs). The last_txs argument is the
unchanged vector of the previous cycle. -/
def bulkCycle (getTx : Nat → Bool) (lastTxs : List Nat) : List Nat → List Nat × List Nat
  | [] => ([], [])
  | h :: rest =>
      if h ∈ lastTxs then bulkCycle getTx lastTxs rest
      else
        let r := bulkCycle getTx lastTxs rest
        (if getTx h then h :: r.1 else r.1, h :: r.2)

/-- The growth guard at ethereum.rs lines 149-151: once the vector
exceeds 10000 entries, drain the first (oldest) 5000. -/
def compact (l : List Nat) : List Nat := if 10000 < l.length then l.drop 5000 else l

/-- A full successful primary cycle: run the loop, replace last_txs by
new_txs (ethereum.rs line 148) and apply the growth guard. Returns
(emitted hashes, the last_txs vector for the next cycle). -/
def bulkUpdate (getTx : Nat → Bool) (lastTxs pending : List Nat) : List Nat × List Nat :=
  let r := bulkCycle getTx lastTxs pending
  (r.1, compact r.2)

/-- The fallback path (ethereum.rs lines 156-169) over the hash list of
the pending pseudo-block: for each hash, fetch the detail first; on
success, if the hash is not contained in last_txs, emit the transaction
and push the hash onto last_txs (mutated in place during the loop). A
failed fetch pushes nothing. No growth guard runs on this path.
Returns (emitted hashes, the last_txs vector after the cycle). -/
def fallbackCycle (getTx : Nat → Bool) (lastTxs : List Nat) : List Nat → List Nat × List Nat
  | [] => ([], lastTxs)
  | h :: rest =>
      if getTx h then
        if h ∈ lastTxs then fallbackCycle getTx lastTxs rest
        else
          let r := fallbackCycle getTx (lastTxs ++ [h]) rest
          (h :: r.1, r.2)
      else fallbackCycle getTx lastTxs rest

/-! ### Block watcher (subscribe_to_blocks, ethereum.rs lines 182-216)

Heights are Nat. A height query result is some h (get_block_number
returned Ok h) or none (it returned Err). The oracle blockAt models
get_block at a height: true when it returns Ok(Some(block)). -/

/-- One iteration of the watcher loop (ethereum.rs lines 192-211).
Given the stored last_block_number and the height query result, return
the new stored value and the emission (some h when the block at h is
fetched and sent). On Ok(current): emit only when a previous height is
recorded, current is strictly greater, and the block fetch succeeds;
then store current unconditionally. On Err: leave the state unchanged. -/
def bwStep (blockAt : Nat → Bool) (last : Option Nat) (q : Option Nat) :
    Option Nat × Option Nat :=
  match q with
  | none => (last, none)
  | some h =>
      match last with
      | none => (some h, none)
      | some l =>
          if l < h then
            if blockAt h then (some h, some h) else (some h, none)
          else (some h, none)

/-- The watcher loop over a finite sequence of height query results:
returns the final stored height and the heights of the emitted blocks
in emission order. -/
def bwRun (blockAt : Nat → Bool) (last : Option Nat) :
    List (Option Nat) → Option Nat × List Nat
  | [] => (last, [])
  | q :: qs =>
      let s := bwStep blockAt last q
      let r := bwRun blockAt s.1 qs
      (r.1, s.2.toList ++ r.2)

/-- The heights of the successful queries of a run, in order. -/
def successHeights : List (Option Nat) → List Nat
  | [] => []
  | none :: qs => successHeights qs
  | some h :: qs => h :: successHeights qs

/-! Lemmas for the connector -/

theorem connectFrom_probe_timeout (probe : Nat → ProbeResult) (maxR rc : Nat)
    (hp : probe rc = ProbeResult.timeout) :
    connectFrom probe maxR rc =
      if maxR ≤ rc + 1 then ⟨.timeoutExhausted, 1, []⟩
      else
        ⟨(connectFrom probe maxR (rc + 1)).outcome,
         (connectFrom probe maxR (rc + 1)).attempts + 1,
         retryDelayMs :: (connectFrom probe maxR (rc + 1)).sleepsMs⟩ := by
  rw [connectFrom, hp]
  by_cases h : maxR ≤ rc + 1
  · simp [h]
  · simp [h]

theorem connectFrom_probe_fatal (probe : Nat → ProbeResult) (maxR rc : Nat)
    (hp : probe rc = ProbeResult.rpcFail (some (-32601))) :
    connectFrom probe maxR rc = ⟨.fatalMethodNotFound, 1, []⟩ := by
  rw [connectFrom, hp]
  simp

/-! Lemmas for the mempool poller -/

theorem bulkCycle_eq (getTx : Nat → Bool) (lastTxs pending : List Nat) :
    bulkCycle getTx lastTxs pending =
      (pending.filter (fun h => decide (h ∉ lastTxs) && getTx h),
       pending.filter (fun h => decide (h ∉ lastTxs))) := by
  induction pending with
  | nil => rfl
  | cons h rest ih =>
      by_cases hm : h ∈ lastTxs
      · simp [bulkCycle, hm, ih, List.filter_cons]
      · by_cases hg : getTx h
        · simp [bulkCycle, hm, ih, List.filter_cons, hg]
        · simp [bulkCycle, hm, ih, List.filter_cons, hg]

theorem compact_subset (l : List Nat) (x : Nat) (hx : x ∈ compact l) : x ∈ l := by
  unfold compact at hx
  by_cases hl : 10000 < l.length
  · rw [if_pos hl] at hx
    exact List.drop_subset _ _ hx
  · rwa [if_neg hl] at hx

theorem compact_of_small (l : List Nat) (hl : l.length ≤ 10000) : compact l = l := by
  unfold compact
  rw [if_neg (by omega)]

theorem mem_bulkUpdate_emitted (getTx : Nat → Bool) (lastTxs pending : List Nat) (x : Nat) :
    x ∈ (bulkUpdate getTx lastTxs pending).1 ↔
      x ∈ pending ∧ x ∉ lastTxs ∧ getTx x = true := by
  show x ∈ (bulkCycle getTx lastTxs pending).1 ↔ _
  rw [bulkCycle_eq]
  simp [List.mem_filter, and_assoc]

theorem mem_bulkUpdate_seen (getTx : Nat → Bool) (lastTxs pending : List Nat) (x : Nat)
    (hx : x ∈ (bulkUpdate getTx lastTxs pending).2) : x ∈ pending ∧ x ∉ lastTxs := by
  have h1 : x ∈ (bulkCycle getTx lastTxs pending).2 := compact_subset _ _ hx
  rw [bulkCycle_eq] at h1
  simpa [List.mem_filter] using h1

theorem fallbackCycle_state_eq (getTx : Nat → Bool) :
    ∀ (blockTxs lastTxs : List Nat),
      (fallbackCycle getTx lastTxs blockTxs).2 =
        lastTxs ++ (fallbackCycle getTx lastTxs blockTxs).1 := by
  intro blockTxs
  induction blockTxs with
  | nil => intro lastTxs; simp [fallbackCycle]
  | cons h rest ih =>
      intro lastTxs
      by_cases hg : getTx h
      · by_cases hm : h ∈ lastTxs
        · simpa [fallbackCycle, hg, hm] using ih lastTxs
        · have := ih (lastTxs ++ [h])
          simp [fallbackCycle, hg, hm, this]
      · simpa [fallbackCycle, hg] using ih lastTxs

theorem fallbackCycle_emitted_fresh (getTx : Nat → Bool) :
    ∀ (blockTxs lastTxs : List Nat) (e : Nat),
      e ∈ (fallbackCycle getTx lastTxs blockTxs).1 → getTx e = true ∧ e ∉ lastTxs := by
  intro blockTxs
  induction blockTxs with
  | nil => intro lastTxs e he; simp [fallbackCycle] at he
  | cons h rest ih =>
      intro lastTxs e he
      by_cases hg : getTx h
      · by_cases hm : h ∈ lastTxs
        · exact ih lastTxs e (by simpa [fallbackCycle, hg, hm] using he)
        · rw [fallbackCycle] at he
          simp only [hg, if_true, hm, if_false] at he
          rcases List.mem_cons.mp he with rfl | he2
          · exact ⟨hg, hm⟩
          · have h2 := ih (lastTxs ++ [h]) e he2
            refine ⟨h2.1, fun hc => h2.2 ?_⟩
            exact List.mem_append_left _ hc
      · exact ih lastTxs e (by simpa [fallbackCycle, hg] using he)

theorem fallbackCycle_all_fresh :
    ∀ (blockTxs lastTxs : List Nat), blockTxs.Nodup →
      (∀ b ∈ blockTxs, b ∉ lastTxs) →
      fallbackCycle (fun _ => true) lastTxs blockTxs = (blockTxs, lastTxs ++ blockTxs) := by
  intro blockTxs
  induction blockTxs with
  | nil => intro lastTxs _ _; simp [fallbackCycle]
  | cons h rest ih =>
      intro lastTxs hnd hfresh
      have hm : h ∉ lastTxs := hfresh h (List.mem_cons_self h rest)
      have hrec := ih (lastTxs ++ [h]) (List.Nodup.of_cons hnd) (by
        intro b hb
        simp only [List.mem_append, List.mem_singleton]
        rintro (hbl | rfl)
        · exact hfresh b (List.mem_cons_of_mem h hb) hbl
        · exact (List.nodup_cons.mp hnd).1 hb)
      rw [fallbackCycle]
      simp only [if_true, hm, if_false, hrec]
      simp

/-! Lemmas for rate pacing -/

theorem cycleStarts_head (delay s0 : Nat) (ps : List Nat) :
    (cycleStarts delay s0 ps).head? = some s0 := by
  cases ps <;> rfl

theorem cycleStarts_chain (delay : Nat) :
    ∀ (ps : List Nat) (s0 : Nat),
      List.Chain' (fun a b => a + delay ≤ b) (cycleStarts delay s0 ps) := by
  intro ps
  induction ps with
  | nil => intro s0; simp [cycleStarts]
  | cons p ps ih =>
      intro s0
      rw [cycleStarts, List.chain'_cons']
      refine ⟨?_, ih _⟩
      intro b hb
      rw [cycleStarts_head] at hb
      obtain rfl : s0 + p + sleepAfter delay p = b := by simpa using hb
      unfold sleepAfter
      split <;> omega

/-! Lemmas for the block watcher -/

theorem bwRun_some_mono (blockAt : Nat → Bool) :
    ∀ (qs : List (Option Nat)) (l : Nat),
      List.Chain' (· ≤ ·) (l :: successHeights qs) →
      List.Chain' (· < ·) (bwRun blockAt (some l) qs).2 ∧
        ∀ e ∈ (bwRun blockAt (some l) qs).2, l < e := by
  intro qs
  induction qs with
  | nil => intro l _; simp [bwRun]
  | cons q qs ih =>
      intro l hch
      cases q with
      | none =>
          have := ih l (by simpa [successHeights] using hch)
          simpa [bwRun, bwStep] using this
      | some h =>
          have hch2 : List.Chain' (· ≤ ·) (l :: h :: successHeights qs) := by
            simpa [successHeights] using hch
          have hlh : l ≤ h := (List.chain'_cons.mp hch2).1
          have htail : List.Chain' (· ≤ ·) (h :: successHeights qs) :=
            (List.chain'_cons.mp hch2).2
          have hrec := ih h htail
          by_cases hcmp : l < h
          · by_cases hb : blockAt h
            · have hgoal :
                  (bwRun blockAt (some l) (some h :: qs)).2 =
                    h :: (bwRun blockAt (some h) qs).2 := by
                simp [bwRun, bwStep, hcmp, hb]
              rw [hgoal]
              constructor
              · rw [List.chain'_cons']
                refine ⟨?_, hrec.1⟩
                intro b hb2
                exact hrec.2 b (List.mem_of_mem_head? hb2)
              · intro e he
                rcases List.mem_cons.mp he with rfl | he2
                · exact hcmp
                · exact lt_trans hcmp (hrec.2 e he2)
            · have hgoal :
                  (bwRun blockAt (some l) (some h :: qs)).2 =
                    (bwRun blockAt (some h) qs).2 := by
                simp [bwRun, bwStep, hcmp, hb]
              rw [hgoal]
              exact ⟨hrec.1, fun e he => lt_of_le_of_lt hlh (hrec.2 e he)⟩
          · have hgoal :
                (bwRun blockAt (some l) (some h :: qs)).2 =
                  (bwRun blockAt (some h) qs).2 := by
              simp [bwRun, bwStep, hcmp]
            rw [hgoal]
            exact ⟨hrec.1, fun e he => lt_of_le_of_lt hlh (hrec.2 e he)⟩

theorem bwRun_none_mono (blockAt : Nat → Bool) :
    ∀ (qs : List (Option Nat)),
      List.Chain' (· ≤ ·) (successHeights qs) →
      List.Chain' (· < ·) (bwRun blockAt none qs).2 := by
  intro qs
  induction qs with
  | nil => intro _; simp [bwRun]
  | cons q qs ih =>
      intro hch
      cases q with
      | none =>
          have := ih (by simpa [successHeights] using hch)
          simpa [bwRun, bwStep] using this
      | some h =>
          have hch2 : List.Chain' (· ≤ ·) (h :: successHeights qs) := by
            simpa [successHeights] using hch
          have := (bwRun_some_mono blockAt qs h hch2).1
          simpa [bwRun, bwStep] using this

theorem bulkUpdate_seen_of_small (getTx : Nat → Bool) (lastTxs pending : List Nat)
    (hlen : (bulkCycle getTx lastTxs pending).2.length ≤ 10000) :
    (bulkUpdate getTx lastTxs pending).2 = pending.filter (fun h => decide (h ∉ lastTxs)) := by
  show compact (bulkCycle getTx lastTxs pending).2 = _
  rw [compact_of_small _ hlen, bulkCycle_eq]

/-! ### Claim theorems -/

/-- C1 counterexample: with every block fetch succeeding, the height
query sequence 1, 5, 3, 4 makes the watcher emit the heights 5 and
then 4, because the stored last height is overwritten by the lower
query result 3; so the emitted heights do not strictly increase, and
the queried height 4, though not above the last emitted height 5,
still yields an emission. -/
theorem claim1_strict_heights_cex :
    (bwRun (fun _ => true) none [some 1, some 5, some 3, some 4]).2 = [5, 4] ∧
      ¬ List.Chain' (· < ·) (bwRun (fun _ => true) none [some 1, some 5, some 3, some 4]).2 := by
  have h : (bwRun (fun _ => true) none [some 1, some 5, some 3, some 4]).2 = [5, 4] := by
    decide
  refine ⟨h, ?_⟩
  rw [h]
  intro hch
  exact absurd (List.chain'_cons.mp hch).1 (by omega)

/-- C1 (amended): the watcher stores every successfully queried height,
including lower ones, so strict monotonicity of emissions holds for
runs whose successfully queried heights never decrease: for such a
query sequence the emitted heights strictly increase. -/
theorem claim1_strict_heights (blockAt : Nat → Bool) (qs : List (Option Nat))
    (hmono : List.Chain' (· ≤ ·) (successHeights qs)) :
    List.Chain' (· < ·) (bwRun blockAt none qs).2 :=
  bwRun_none_mono blockAt qs hmono

/-- C1 witness: the amended theorem applied to a concrete run with
non-decreasing queried heights. -/
theorem claim1_strict_heights_witness :
    List.Chain' (· ≤ ·) (successHeights [some 1, some 2, none, some 5]) ∧
      List.Chain' (· < ·) (bwRun (fun _ => true) none [some 1, some 2, none, some 5]).2 :=
  ⟨List.chain'_cons.mpr ⟨by omega, List.chain'_cons.mpr ⟨by omega, List.chain'_singleton 5⟩⟩,
   claim1_strict_heights (fun _ => true) [some 1, some 2, none, some 5]
     (List.chain'_cons.mpr ⟨by omega, List.chain'_cons.mpr ⟨by omega, List.chain'_singleton 5⟩⟩)⟩

/-- C2 counterexample: a send on a full open queue (length equal to
capacity, consumer still alive) resolves to awaiting capacity, not to
the dropped-and-logged outcome the claim describes; this holds for
both the 1000-capacity transaction channel and the 100-capacity block
channel. -/
theorem claim2_full_queue_cex :
    mpscSendOutcome txChannelCapacity txChannelCapacity false = SendOutcome.awaitsCapacity ∧
      mpscSendOutcome blockChannelCapacity blockChannelCapacity false =
        SendOutcome.awaitsCapacity ∧
      SendOutcome.awaitsCapacity ≠ SendOutcome.errClosed := by
  decide

/-- C2 (amended): on a send to a full open queue the producer suspends
awaiting capacity (so it can block indefinitely if the consumer never
drains); the logged soft-failure path occurs exactly when the channel
is closed; with free capacity the item is delivered. -/
theorem claim2_full_queue (capacity len : Nat) :
    (capacity ≤ len → mpscSendOutcome capacity len false = SendOutcome.awaitsCapacity) ∧
      mpscSendOutcome capacity len true = SendOutcome.errClosed ∧
      (len < capacity → mpscSendOutcome capacity len false = SendOutcome.delivered) := by
  refine ⟨fun h => ?_, rfl, fun h => ?_⟩
  · simp [mpscSendOutcome, Nat.not_lt.mpr h]
  · simp [mpscSendOutcome, h]

/-- C2 witness: the amended theorem applied to the transaction channel
at its capacity. -/
theorem claim2_full_queue_witness :
    txChannelCapacity ≤ 1000 ∧
      mpscSendOutcome txChannelCapacity 1000 false = SendOutcome.awaitsCapacity :=
  ⟨by decide, (claim2_full_queue txChannelCapacity 1000).1 (by decide)⟩

/-- C3 counterexample: a successful bulk cycle that discovers 10001
fresh ids does not keep exactly that set: the growth guard drains the
oldest 5000, leaving 5001 entries. -/
theorem claim3_seen_replacement_cex :
    (bulkCycle (fun _ => true) [] (List.range 10001)).2.length = 10001 ∧
      (bulkUpdate (fun _ => true) [] (List.range 10001)).2.length = 5001 := by
  have hfilter : (List.range 10001).filter (fun h => decide (h ∉ ([] : List Nat))) =
      List.range 10001 := by
    apply List.filter_eq_self.mpr
    intro a _
    simp
  constructor
  · rw [bulkCycle_eq, hfilter, List.length_range]
  · simp only [bulkUpdate, bulkCycle_eq]
    rw [hfilter]
    unfold compact
    rw [if_pos (by rw [List.length_range]; omega)]
    rw [List.length_drop, List.length_range]

/-- C3 (amended): after a successful bulk cycle the seen collection
holds only ids first discovered during that cycle (ids from earlier
cycles are gone), and when at most 10000 ids were discovered it is
exactly that set; consequently an id pending across three consecutive
successful cycles, fetchable throughout, is emitted in the first,
suppressed in the second, and emitted again in the third, provided the
first cycle discovered at most 10000 ids (otherwise the drain of the
oldest 5000 may also forget it). -/
theorem claim3_seen_replacement :
    (∀ (getTx : Nat → Bool) (lastTxs pending : List Nat) (x : Nat),
        x ∈ (bulkUpdate getTx lastTxs pending).2 → x ∈ pending ∧ x ∉ lastTxs)
    ∧ (∀ (getTx : Nat → Bool) (lastTxs pending : List Nat),
        (bulkCycle getTx lastTxs pending).2.length ≤ 10000 →
        (bulkUpdate getTx lastTxs pending).2 =
          pending.filter (fun h => decide (h ∉ lastTxs)))
    ∧ (∀ (getTx : Nat → Bool) (l0 p1 p2 p3 : List Nat) (x : Nat),
        getTx x = true → x ∉ l0 → x ∈ p1 → x ∈ p2 → x ∈ p3 →
        (bulkCycle getTx l0 p1).2.length ≤ 10000 →
        x ∈ (bulkUpdate getTx l0 p1).1 ∧
          x ∉ (bulkUpdate getTx (bulkUpdate getTx l0 p1).2 p2).1 ∧
          x ∈ (bulkUpdate getTx (bulkUpdate getTx (bulkUpdate getTx l0 p1).2 p2).2 p3).1) := by
  refine ⟨mem_bulkUpdate_seen, bulkUpdate_seen_of_small, ?_⟩
  intro getTx l0 p1 p2 p3 x hg hx0 hx1 hx2 hx3 hlen
  have hxL1 : x ∈ (bulkUpdate getTx l0 p1).2 := by
    rw [bulkUpdate_seen_of_small getTx l0 p1 hlen]
    exact List.mem_filter.mpr ⟨hx1, by simpa using hx0⟩
  refine ⟨(mem_bulkUpdate_emitted getTx l0 p1 x).mpr ⟨hx1, hx0, hg⟩, ?_, ?_⟩
  · intro hc
    exact ((mem_bulkUpdate_emitted getTx _ p2 x).mp hc).2.1 hxL1
  · refine (mem_bulkUpdate_emitted getTx _ p3 x).mpr ⟨hx3, ?_, hg⟩
    intro hc
    exact (mem_bulkUpdate_seen getTx _ p2 x hc).2 hxL1

/-- C3 witness: the amended theorem applied to an id pending across
three consecutive small cycles. -/
theorem claim3_seen_replacement_witness :
    ((fun (_ : Nat) => true) 5 = true ∧ (5 : Nat) ∉ ([] : List Nat) ∧ (5 : Nat) ∈ [5] ∧
        (bulkCycle (fun _ => true) ([] : List Nat) [5]).2.length ≤ 10000) ∧
      (5 ∈ (bulkUpdate (fun _ => true) ([] : List Nat) [5]).1 ∧
        5 ∉ (bulkUpdate (fun _ => true) (bulkUpdate (fun _ => true) ([] : List Nat) [5]).2 [5]).1 ∧
        5 ∈ (bulkUpdate (fun _ => true)
              (bulkUpdate (fun _ => true)
                (bulkUpdate (fun _ => true) ([] : List Nat) [5]).2 [5]).2 [5]).1) :=
  ⟨⟨rfl, by decide, by decide, by decide⟩,
   claim3_seen_replacement.2.2 (fun _ => true) [] [5] [5] [5] 5 rfl (by decide) (by decide)
     (by decide) (by decide) (by decide)⟩

/-- C5 counterexample: on the first successful height query (height 7,
block present) the watcher records the height but emits nothing,
whereas the claim requires the block at that height to be fetched and
emitted. -/
theorem claim5_first_emission_cex :
    bwRun (fun _ => true) none [some 7] = (some 7, []) := by
  decide

/-- C5 (amended): on the first successful height query, with no prior
height recorded, the watcher records the queried height as its
last-seen height without fetching or emitting any block, whatever the
block oracle would answer; emissions begin only with a later, strictly
greater queried height. -/
theorem claim5_first_emission (blockAt : Nat → Bool) (h : Nat) :
    bwRun blockAt none [some h] = (some h, []) := rfl

/-- C4: the code-level behavior at rate limit zero. The clap-parsed
configuration accepts the value 0 (there is no positivity validator),
and the per-cycle delay computation 1000 / 0, reached inside
subscribe_to_pending_transactions, is a Rust division by zero, i.e. a
panic at call time rather than a startup rejection. -/
theorem claim4_zero_rate_bug :
    cliParseRateLimit 0 = some 0 ∧ pollDelayMs 0 = none := by
  decide

/-- C6: the fallback path has no growth guard. A single fallback cycle
starting from an empty seen list and discovering 10001 distinct
fetchable ids leaves all 10001 ids stored: the count exceeds the
10000-entry ceiling and no eviction of the oldest half takes place. -/
theorem claim6_fallback_unbounded_bug :
    (fallbackCycle (fun _ => true) [] (List.range 10001)).2 = List.range 10001 ∧
      10000 < (List.range 10001).length := by
  have h := fallbackCycle_all_fresh (List.range 10001) [] (List.nodup_range 10001)
    (fun b _ => List.not_mem_nil b)
  constructor
  · rw [h, List.nil_append]
  · rw [List.length_range]
    omega

/-- C7: with a probe that always times out, connect performs exactly 3
attempts, sleeps the fixed 500 ms retry delay between consecutive
attempts (two sleeps, both equal, no exponential growth), and ends with
the timeout-exhausted failure after the third attempt. -/
theorem claim7_timeout_retries (probe : Nat → ProbeResult)
    (hp : ∀ n, probe n = ProbeResult.timeout) :
    connect probe = ⟨ConnectOutcome.timeoutExhausted, 3, [retryDelayMs, retryDelayMs]⟩ := by
  have h2 : connectFrom probe 3 2 = ⟨ConnectOutcome.timeoutExhausted, 1, []⟩ := by
    rw [connectFrom_probe_timeout probe 3 2 (hp 2)]
    rw [if_pos (by omega)]
  have h1 : connectFrom probe 3 1 = ⟨ConnectOutcome.timeoutExhausted, 2, [retryDelayMs]⟩ := by
    rw [connectFrom_probe_timeout probe 3 1 (hp 1)]
    rw [if_neg (by omega), h2]
  show connectFrom probe 3 0 = _
  rw [connectFrom_probe_timeout probe 3 0 (hp 0)]
  rw [if_neg (by omega), h1]

/-- C7 witness: the theorem applied to the constant timeout probe. -/
theorem claim7_timeout_retries_witness :
    connect (fun _ => ProbeResult.timeout) =
      ⟨ConnectOutcome.timeoutExhausted, 3, [retryDelayMs, retryDelayMs]⟩ :=
  claim7_timeout_retries (fun _ => ProbeResult.timeout) (fun _ => rfl)

/-- C8: if the first probe yields an RPC error whose extracted code is
-32601 (method not found), the retry loop returns the fatal outcome
after exactly one attempt with no sleeps, for every retry budget. -/
theorem claim8_fatal_short_circuit (maxR : Nat) (probe : Nat → ProbeResult)
    (hp : probe 0 = ProbeResult.rpcFail (some (-32601))) :
    connectFrom probe maxR 0 = ⟨ConnectOutcome.fatalMethodNotFound, 1, []⟩ :=
  connectFrom_probe_fatal probe maxR 0 hp

/-- C8 witness: the theorem applied to a method-not-found probe under a
retry budget of 7. -/
theorem claim8_fatal_short_circuit_witness :
    connectFrom (fun _ => ProbeResult.rpcFail (some (-32601))) 7 0 =
      ⟨ConnectOutcome.fatalMethodNotFound, 1, []⟩ :=
  claim8_fatal_short_circuit 7 (fun _ => ProbeResult.rpcFail (some (-32601))) rfl

/-- C9 counterexample: on the primary path, id 2 whose detail fetch
fails is still pushed onto the new seen list (the claim requires that
nothing be marked for it); its siblings 1 and 3 are emitted normally. -/
theorem claim9_item_fetch_cex :
    (bulkCycle (fun h => h != 2) [] [1, 2, 3]).1 = [1, 3] ∧
      (bulkCycle (fun h => h != 2) [] [1, 2, 3]).2 = [1, 2, 3] ∧
      (fun h => h != 2) 2 = false := by
  decide

/-- C9 (amended): a fetch failure never aborts the cycle and never
affects sibling items. On the primary path each fresh id is emitted
exactly when its fetch succeeds, but every fresh id is marked seen
regardless of its fetch result; on the fallback path the seen list is
extended by exactly the emitted ids (a failed fetch marks nothing), and
every emitted id passed its fetch and was previously unseen. -/
theorem claim9_item_fetch :
    (∀ (getTx : Nat → Bool) (lastTxs pending : List Nat),
        (bulkCycle getTx lastTxs pending).1 =
            pending.filter (fun h => decide (h ∉ lastTxs) && getTx h) ∧
          (bulkCycle getTx lastTxs pending).2 =
            pending.filter (fun h => decide (h ∉ lastTxs)))
    ∧ (∀ (getTx : Nat → Bool) (lastTxs blockTxs : List Nat),
        (fallbackCycle getTx lastTxs blockTxs).2 =
            lastTxs ++ (fallbackCycle getTx lastTxs blockTxs).1 ∧
          ∀ e ∈ (fallbackCycle getTx lastTxs blockTxs).1, getTx e = true ∧ e ∉ lastTxs) := by
  constructor
  · intro getTx lastTxs pending
    rw [bulkCycle_eq]
    exact ⟨rfl, rfl⟩
  · intro getTx lastTxs blockTxs
    exact ⟨fallbackCycle_state_eq getTx blockTxs lastTxs,
      fun e he => fallbackCycle_emitted_fresh getTx blockTxs lastTxs e he⟩

/-- C9 witness: the amended theorem applied to concrete single-item
cycles on both paths. -/
theorem claim9_item_fetch_witness :
    ((bulkCycle (fun _ => true) ([] : List Nat) [4]).1 =
        [4].filter (fun h => decide (h ∉ ([] : List Nat)) && (fun _ => true) h)) ∧
      ((fun (_ : Nat) => true) 5 = true ∧ (5 : Nat) ∉ ([] : List Nat)) :=
  ⟨(claim9_item_fetch.1 (fun _ => true) [] [4]).1,
   (claim9_item_fetch.2 (fun _ => true) [] [5]).2 5 (by decide)⟩

/-- C10: for every rate limit of at least 1, the pacing delay is the
integer division 1000 / R milliseconds; a cycle whose processing time
is below the delay is followed by a suspension of exactly the delay
minus the elapsed time; and along any run, consecutive cycle start
times are at least the delay apart. -/
theorem claim10_rate_pacing (r : Nat) (hr : 1 ≤ r) :
    pollDelayMs r = some (1000 / r) ∧
      (∀ p, p < 1000 / r → sleepAfter (1000 / r) p = 1000 / r - p) ∧
      ∀ (s0 : Nat) (ps : List Nat),
        List.Chain' (fun a b => a + 1000 / r ≤ b) (cycleStarts (1000 / r) s0 ps) := by
  refine ⟨?_, fun p hp => ?_, fun s0 ps => cycleStarts_chain (1000 / r) ps s0⟩
  · unfold pollDelayMs rustDiv
    rw [if_neg (by omega)]
  · unfold sleepAfter
    rw [if_pos hp]

/-- C10 witness: the theorem applied at the default rate limit of 30
with concrete processing times. -/
theorem claim10_rate_pacing_witness :
    pollDelayMs 30 = some (1000 / 30) ∧
      sleepAfter (1000 / 30) 10 = 1000 / 30 - 10 ∧
      List.Chain' (fun a b => a + 1000 / 30 ≤ b) (cycleStarts (1000 / 30) 0 [10, 50]) :=
  ⟨(claim10_rate_pacing 30 (by omega)).1,
   (claim10_rate_pacing 30 (by omega)).2.1 10 (by omega),
   (claim10_rate_pacing 30 (by omega)).2.2 0 [10, 50]⟩

end Ultreth
